import Mathlib

/-!
Verification of the Sokoban solver's frontend game model.

The repository contains two revisions of the React frontend, each with its
own copy of the map parser (`parseMap`), the move-application function
(`applyMove`) and the goal test (`isGoal`):

* `src/frontend/src/App.js` — embedded below in namespace `AppJs`;
* `src/unnamed/part_000` (a later revision of `App.js`) — embedded below in
  namespace `PartZero`.

Coordinates are pairs of integers `(x, y)`; `x` grows rightwards and `y`
grows downwards, exactly as in the JavaScript code.  JavaScript numbers at
the scale involved here (grid coordinates) behave as exact integers, so we
model them by `Int`.
-/

structure Coord where
  x : Int
  y : Int
deriving DecidableEq, Inhabited

/-- The four direction codes `"U" | "D" | "L" | "R"`. -/
inductive Move where
  | U
  | D
  | L
  | R
deriving DecidableEq, Inhabited

/-- The unit deltas of the `dirs` / `moves` tables:
`U ↦ (0,-1)`, `D ↦ (0,1)`, `L ↦ (-1,0)`, `R ↦ (1,0)`. -/
def delta : Move → Int × Int
  | .U => (0, -1)
  | .D => (0, 1)
  | .L => (-1, 0)
  | .R => (1, 0)

/-- Row-major flattening of a grid of characters: the cell `(x, y, c)` lists
column, row and symbol.  This mirrors the nested row-then-column iteration
performed by both parsers (rows top to bottom, characters left to right). -/
def cellsOf (rows : List (List Char)) : List (Nat × Nat × Char) :=
  (rows.enum.map (fun yr => yr.2.enum.map (fun xc => (xc.1, yr.1, xc.2)))).flatten

/-- The positions of the mover symbols (`'@'` or `'+'`) of a cell list, in
the order the cells are scanned. -/
def moverCells (cells : List (Nat × Nat × Char)) : List Coord :=
  cells.filterMap fun cell =>
    if cell.2.2 = '@' ∨ cell.2.2 = '+' then some ⟨cell.1, cell.2.1⟩ else none

/-- The positions of the box symbols (`'$'` or `'*'`) of a cell list. -/
def boxCells (cells : List (Nat × Nat × Char)) : List Coord :=
  cells.filterMap fun cell =>
    if cell.2.2 = '$' ∨ cell.2.2 = '*' then some ⟨cell.1, cell.2.1⟩ else none

/-- The positions of the goal symbols (`'.'`, `'*'` or `'+'`) of a cell list. -/
def goalCells (cells : List (Nat × Nat × Char)) : List Coord :=
  cells.filterMap fun cell =>
    if cell.2.2 = '.' ∨ cell.2.2 = '*' ∨ cell.2.2 = '+' then some ⟨cell.1, cell.2.1⟩ else none

/-- The positions of the wall symbols (`'#'`) of a cell list. -/
def wallCells (cells : List (Nat × Nat × Char)) : List Coord :=
  cells.filterMap fun cell =>
    if cell.2.2 = '#' then some ⟨cell.1, cell.2.1⟩ else none

namespace AppJs

/-! Embedding of `src/frontend/src/App.js` (`parseMap`, `applyMove`,
`isGoal`).  Boxes there carry an `id` field assigned at parse time
(`id: boxes.length`); pushes keep the pushed box's `id`. -/

structure Box where
  x : Int
  y : Int
  id : Nat
deriving DecidableEq, Inhabited

/-- Accumulator of `parseMap`'s scan: the mutable `player`, `boxes`,
`goals`, `walls` locals of the JavaScript function.  The `walls` Set of
strings `"x,y"` is modelled as a list of the (injectively) encoded
coordinates. -/
structure ParseAcc where
  player : Option Coord
  boxes : List Box
  goals : List Coord
  walls : List Coord
deriving DecidableEq

/-- One iteration of the `forEach` body of `App.js`'s `parseMap`: four
independent `if` statements on the cell symbol. -/
def parseStep (acc : ParseAcc) (cell : Nat × Nat × Char) : ParseAcc :=
  let x : Int := cell.1
  let y : Int := cell.2.1
  let c : Char := cell.2.2
  let acc1 := if c = '@' ∨ c = '+' then { acc with player := some ⟨x, y⟩ } else acc
  let acc2 := if c = '$' ∨ c = '*' then
      { acc1 with boxes := acc1.boxes ++ [⟨x, y, acc1.boxes.length⟩] } else acc1
  let acc3 := if c = '.' ∨ c = '*' ∨ c = '+' then
      { acc2 with goals := acc2.goals ++ [⟨x, y⟩] } else acc2
  if c = '#' then { acc3 with walls := acc3.walls ++ [⟨x, y⟩] } else acc3

/-- The value returned by `App.js`'s `parseMap`. -/
structure PDef where
  player : Option Coord
  boxes : List Box
  goals : List Coord
  walls : List Coord
  width : Nat
  height : Nat
  map : List (List Char)
deriving DecidableEq

/-- `App.js`'s `parseMap`.  Its width is `map[0].length`, the length of the
FIRST row; on an empty map the source faults (`map[0]` is `undefined`),
modelled by `none`. -/
def parseMap (rows : List (List Char)) : Option PDef :=
  match rows with
  | [] => none
  | r0 :: rest =>
    let acc := (cellsOf (r0 :: rest)).foldl parseStep ⟨none, [], [], []⟩
    some { player := acc.player, boxes := acc.boxes, goals := acc.goals, walls := acc.walls,
           width := r0.length, height := (r0 :: rest).length, map := r0 :: rest }

/-- A dynamic game state with the mover present, as manipulated by
`applyMove` (which dereferences `state.player`). -/
structure DState where
  player : Coord
  boxes : List Box
  goals : List Coord
  walls : List Coord
  width : Nat
  height : Nat
  map : List (List Char)
deriving DecidableEq, Inhabited

/-- The initial dynamic state derived from a parsed definition, defined when
the parser recorded a mover. -/
def toDState (p : PDef) : Option DState :=
  p.player.map fun pl =>
    { player := pl, boxes := p.boxes, goals := p.goals, walls := p.walls,
      width := p.width, height := p.height, map := p.map }

/-- `App.js`'s `applyMove`.  The source first deep-clones the state (fresh
`player` and box objects; the `walls` Set is shared but only read), sets the
clone's `player` to `(x+dx, y+dy)`, then looks for the FIRST box at that
cell with `findIndex` and, if found, replaces it by a box at
`(newX+dx, newY+dy)` with the same `id`.  No wall or blocking check is
performed. -/
def applyMove (s : DState) (m : Move) : DState :=
  let d := delta m
  let newX := s.player.x + d.1
  let newY := s.player.y + d.2
  match s.boxes.findIdx? (fun b => b.x == newX && b.y == newY) with
  | none => { s with player := ⟨newX, newY⟩ }
  | some i =>
      { s with player := ⟨newX, newY⟩,
               boxes := s.boxes.set i ⟨newX + d.1, newY + d.2, (s.boxes.getD i default).id⟩ }

/-- `App.js`'s `isGoal` on a (non-null) state: every box has some goal with
equal coordinates. -/
def isGoal (s : DState) : Bool :=
  s.boxes.all fun b => s.goals.any fun g => g.x == b.x && g.y == b.y

/-- Replaying a path action-by-action, as `getCurrentState` does with the
solution path. -/
def replay (s : DState) (ms : List Move) : DState :=
  ms.foldl applyMove s

end AppJs

namespace PartZero

/-! Embedding of `src/unnamed/part_000` (`parseMap`, `applyMove`,
`isGoal`).  Boxes here are bare coordinate records with no `id`. -/

/-- Accumulator of the nested `for` loops of `part_000`'s `parseMap`. -/
structure ParseAcc where
  player : Option Coord
  boxes : List Coord
  goals : List Coord
  walls : List Coord
deriving DecidableEq

/-- One iteration of the inner loop body: four independent `if` statements
on the cell symbol. -/
def parseStep (acc : ParseAcc) (cell : Nat × Nat × Char) : ParseAcc :=
  let x : Int := cell.1
  let y : Int := cell.2.1
  let c : Char := cell.2.2
  let acc1 := if c = '@' ∨ c = '+' then { acc with player := some ⟨x, y⟩ } else acc
  let acc2 := if c = '$' ∨ c = '*' then { acc1 with boxes := acc1.boxes ++ [⟨x, y⟩] } else acc1
  let acc3 := if c = '.' ∨ c = '*' ∨ c = '+' then
      { acc2 with goals := acc2.goals ++ [⟨x, y⟩] } else acc2
  if c = '#' then { acc3 with walls := acc3.walls ++ [⟨x, y⟩] } else acc3

/-- `Math.max(...map.map(row => row.length))`: the maximum row length.  (On
an empty map the source yields `-Infinity`; statements involving the width
are therefore made for non-empty maps only.) -/
def maxRowLen (rows : List (List Char)) : Nat :=
  (rows.map List.length).foldr Nat.max 0

/-- The state record returned by `part_000`'s `parseMap`. -/
structure St where
  player : Option Coord
  boxes : List Coord
  goals : List Coord
  walls : List Coord
  width : Nat
  height : Nat
deriving DecidableEq

/-- `part_000`'s `parseMap`: width is the MAXIMUM row length, and the scan
runs `y` over rows and `x` over the characters actually present in row `y`. -/
def parseMap (rows : List (List Char)) : St :=
  let acc := (cellsOf rows).foldl parseStep ⟨none, [], [], []⟩
  { player := acc.player, boxes := acc.boxes, goals := acc.goals, walls := acc.walls,
    width := maxRowLen rows, height := rows.length }

/-- A dynamic state with the mover present, as manipulated by `applyMove`. -/
structure DState where
  player : Coord
  boxes : List Coord
  goals : List Coord
  walls : List Coord
  width : Nat
  height : Nat
deriving DecidableEq, Inhabited

/-- `part_000`'s `applyMove`: deep-clones the state via JSON round-trip,
looks for the first box at `(x+dx, y+dy)` with `findIndex`, relocates it to
`(newX+dx, newY+dy)` if found, then sets the player to `(newX, newY)`.  No
wall or blocking check is performed. -/
def applyMove (s : DState) (m : Move) : DState :=
  let d := delta m
  let newX := s.player.x + d.1
  let newY := s.player.y + d.2
  let boxes :=
    match s.boxes.findIdx? (fun b => b.x == newX && b.y == newY) with
    | none => s.boxes
    | some i => s.boxes.set i ⟨newX + d.1, newY + d.2⟩
  { s with player := ⟨newX, newY⟩, boxes := boxes }

/-- `part_000`'s `isGoal` on a (non-null) state. -/
def isGoal (s : DState) : Bool :=
  s.boxes.all fun b => s.goals.any fun g => g.x == b.x && g.y == b.y

end PartZero

/-! Derived notions used to state the claims. -/

/-- The coordinate of an `App.js` box, forgetting its `id`. -/
def AppJs.Box.pos (b : AppJs.Box) : Coord :=
  ⟨b.x, b.y⟩

/-- The cell the mover steps into: `mover + (dx, dy)`. -/
def AppJs.target (s : AppJs.DState) (m : Move) : Coord :=
  ⟨s.player.x + (delta m).1, s.player.y + (delta m).2⟩

/-- The cell behind the target: `target + (dx, dy)`. -/
def AppJs.beyond (s : AppJs.DState) (m : Move) : Coord :=
  ⟨(AppJs.target s m).x + (delta m).1, (AppJs.target s m).y + (delta m).2⟩

/-- Wall membership of a cell (the `walls.has` test). -/
def AppJs.hasWall (s : AppJs.DState) (c : Coord) : Bool :=
  decide (c ∈ s.walls)

/-- Whether some box occupies a cell. -/
def AppJs.hasBox (s : AppJs.DState) (c : Coord) : Bool :=
  s.boxes.any fun b => b.x == c.x && b.y == c.y

/-- Modelled from the spec: the legal-move generator (spec §4.2) belongs to
the backend search engine, whose source file is not in the repository
snapshot; the frontend's `applyMove` applies moves unconditionally.  Per the
spec's words: a move is illegal when `target` is a wall, or when `target`
holds a box and `beyond` is a wall or already holds another box. -/
def AppJs.legalMove (s : AppJs.DState) (m : Move) : Bool :=
  !(AppJs.hasWall s (AppJs.target s m)) &&
    (if AppJs.hasBox s (AppJs.target s m) then
      !(AppJs.hasWall s (AppJs.beyond s m)) && !(AppJs.hasBox s (AppJs.beyond s m))
    else true)

/-- The cell the mover steps into, for the `part_000` state type. -/
def PartZero.target (s : PartZero.DState) (m : Move) : Coord :=
  ⟨s.player.x + (delta m).1, s.player.y + (delta m).2⟩

/-- The cell behind the target, for the `part_000` state type. -/
def PartZero.beyond (s : PartZero.DState) (m : Move) : Coord :=
  ⟨(PartZero.target s m).x + (delta m).1, (PartZero.target s m).y + (delta m).2⟩

/-- Wall membership of a cell, for the `part_000` state type. -/
def PartZero.hasWall (s : PartZero.DState) (c : Coord) : Bool :=
  decide (c ∈ s.walls)

/-- Whether some box occupies a cell, for the `part_000` state type. -/
def PartZero.hasBox (s : PartZero.DState) (c : Coord) : Bool :=
  s.boxes.any fun b => b.x == c.x && b.y == c.y

/-- Modelled from the spec: the legal-move generator (spec §4.2) for the
`part_000` state type; see `AppJs.legalMove`. -/
def PartZero.legalMove (s : PartZero.DState) (m : Move) : Bool :=
  !(PartZero.hasWall s (PartZero.target s m)) &&
    (if PartZero.hasBox s (PartZero.target s m) then
      !(PartZero.hasWall s (PartZero.beyond s m)) && !(PartZero.hasBox s (PartZero.beyond s m))
    else true)

/-- Modelled from the spec: the Validation component (spec §4.6) belongs to
the backend service, whose source file is not in the repository snapshot;
per the spec it requires at least one box. -/
def specHasAtLeastOneBox (boxCount : Nat) : Bool :=
  decide (1 ≤ boxCount)

/-! A reference/heap model of `App.js`'s `applyMove`, used to state that the
function never mutates the state object it is given: states live in a heap
addressed by references, `applyMove` allocates a fresh object (`const
newState = { player: {...}, boxes: state.boxes.map(...), ... }`) and then
performs its two writes (`newState.player = ...`,
`newState.boxes[boxIndex] = ...`) on that fresh reference only. -/

/-- A heap of state objects; a reference is an index into it. -/
abbrev AppJs.Heap : Type :=
  List AppJs.DState

/-- Dereferencing. -/
def AppJs.readRef (h : AppJs.Heap) (r : Nat) : AppJs.DState :=
  List.getD h r default

/-- Overwriting the object a reference points to. -/
def AppJs.writeRef (h : AppJs.Heap) (r : Nat) (s : AppJs.DState) : AppJs.Heap :=
  List.set h r s

/-- The field-by-field copy built by the object literal at the top of
`App.js`'s `applyMove`: fresh `player` and box records, the `walls` Set kept
as a shared (read-only) reference. -/
def AppJs.cloneState (s : AppJs.DState) : AppJs.DState :=
  { player := ⟨s.player.x, s.player.y⟩,
    boxes := s.boxes.map fun b => ⟨b.x, b.y, b.id⟩,
    goals := s.goals.map fun g => ⟨g.x, g.y⟩,
    walls := s.walls, width := s.width, height := s.height, map := s.map }

/-- `App.js`'s `applyMove` as a heap transformer: allocate the clone at a
fresh reference, then perform the `newState.player` write and (when a box
sits at the target cell) the `newState.boxes[boxIndex]` element write, both
on the fresh reference.  Returns the heap and the reference to the new
state. -/
def AppJs.applyMoveRef (h : AppJs.Heap) (r : Nat) (m : Move) : AppJs.Heap × Nat :=
  let r1 := h.length
  let h1 := h ++ [AppJs.cloneState (AppJs.readRef h r)]
  let d := delta m
  let newX := (AppJs.readRef h1 r1).player.x + d.1
  let newY := (AppJs.readRef h1 r1).player.y + d.2
  let h2 := AppJs.writeRef h1 r1 { AppJs.readRef h1 r1 with player := ⟨newX, newY⟩ }
  let h3 :=
    match (AppJs.readRef h2 r1).boxes.findIdx? (fun b => b.x == newX && b.y == newY) with
    | none => h2
    | some i =>
        AppJs.writeRef h2 r1
          { AppJs.readRef h2 r1 with
            boxes := (AppJs.readRef h2 r1).boxes.set i
              ⟨newX + d.1, newY + d.2, ((AppJs.readRef h2 r1).boxes.getD i default).id⟩ }
  (h3, r1)

/-! The same reference/heap model for `part_000`'s `applyMove`: there the
clone is produced by a JSON round-trip (`JSON.parse(JSON.stringify(state))`,
a deep structural copy of every field), the `newState.boxes[boxIndex]`
element write comes first, and the `newState.player` write comes second. -/

/-- A heap of `part_000` state objects; a reference is an index into it. -/
abbrev PartZero.Heap : Type :=
  List PartZero.DState

/-- Dereferencing, for the `part_000` state type. -/
def PartZero.readRef (h : PartZero.Heap) (r : Nat) : PartZero.DState :=
  List.getD h r default

/-- Overwriting the object a reference points to, for the `part_000` state
type. -/
def PartZero.writeRef (h : PartZero.Heap) (r : Nat) (s : PartZero.DState) : PartZero.Heap :=
  List.set h r s

/-- The JSON round-trip clone of `part_000`'s `applyMove`: a deep structural
copy of every field of the state. -/
def PartZero.cloneState (s : PartZero.DState) : PartZero.DState :=
  { player := ⟨s.player.x, s.player.y⟩,
    boxes := s.boxes.map fun b => ⟨b.x, b.y⟩,
    goals := s.goals.map fun g => ⟨g.x, g.y⟩,
    walls := s.walls.map fun w => ⟨w.x, w.y⟩,
    width := s.width, height := s.height }

/-- `part_000`'s `applyMove` as a heap transformer: allocate the JSON-cloned
state at a fresh reference, then perform the `newState.boxes[boxIndex]`
element write (when a box sits at the target cell) and the
`newState.player` write, in that source order, both on the fresh
reference.  Returns the heap and the reference to the new state. -/
def PartZero.applyMoveRef (h : PartZero.Heap) (r : Nat) (m : Move) : PartZero.Heap × Nat :=
  let r1 := h.length
  let h1 := h ++ [PartZero.cloneState (PartZero.readRef h r)]
  let d := delta m
  let newX := (PartZero.readRef h1 r1).player.x + d.1
  let newY := (PartZero.readRef h1 r1).player.y + d.2
  let h2 :=
    match (PartZero.readRef h1 r1).boxes.findIdx? (fun b => b.x == newX && b.y == newY) with
    | none => h1
    | some i =>
        PartZero.writeRef h1 r1
          { PartZero.readRef h1 r1 with
            boxes := (PartZero.readRef h1 r1).boxes.set i ⟨newX + d.1, newY + d.2⟩ }
  let h3 := PartZero.writeRef h2 r1 { PartZero.readRef h2 r1 with player := ⟨newX, newY⟩ }
  (h3, r1)

/-! Concrete inputs used by the scenario claims. -/

/-- The documented scenario map of spec §8. -/
def scenarioMap : List (List Char) :=
  ["######", "#    #", "# $@ #", "# .  #", "######"].map String.toList

/-- A ragged map whose first row is strictly shorter than a later row. -/
def raggedMap : List (List Char) :=
  ["##", "####"].map String.toList

/-- A map with two mover symbols. -/
def twoMoverMap : List (List Char) :=
  ["@@"].map String.toList

/-- A map with no mover symbol. -/
def noMoverMap : List (List Char) :=
  ["##", "#$"].map String.toList

/-- The dynamic state parsed from the scenario map, written out, used as a
concrete input by witnesses. -/
def AppJs.sampleState : AppJs.DState :=
  { player := ⟨3, 2⟩, boxes := [⟨2, 2, 0⟩], goals := [⟨2, 3⟩],
    walls := wallCells (cellsOf scenarioMap), width := 6, height := 5, map := scenarioMap }

/-- The same concrete state in the `part_000` representation. -/
def PartZero.sampleState : PartZero.DState :=
  { player := ⟨3, 2⟩, boxes := [⟨2, 2⟩], goals := [⟨2, 3⟩],
    walls := wallCells (cellsOf scenarioMap), width := 6, height := 5 }

/-! Theorems. -/

/-- Any-search over a coordinate list with component-wise equality is
membership. -/
theorem any_coordEq_iff_mem (c : Coord) (l : List Coord) :
    (l.any fun g => g.x == c.x && g.y == c.y) = true ↔ c ∈ l := by
  simp only [List.any_eq_true, Bool.and_eq_true, beq_iff_eq]
  constructor
  · rintro ⟨g, hg, hx, hy⟩
    have : g = c := by cases g; cases c; simp_all
    rwa [this] at hg
  · intro h
    exact ⟨c, h, rfl, rfl⟩

/-- C1 (counterexample): on the documented scenario map, replaying the
documented path `["L","D","D"]` from the parsed initial state pushes the box
to `(1,2)`, away from the single goal `(2,3)`, and the goal test returns
`false` — not `true` as claimed. -/
theorem replay_documented_path_fails :
    ((AppJs.parseMap scenarioMap).bind AppJs.toDState).map
        (fun s => AppJs.isGoal (AppJs.replay s [.L, .D, .D])) = some false ∧
    ((AppJs.parseMap scenarioMap).bind AppJs.toDState).map
        (fun s => (AppJs.replay s [.L, .D, .D]).boxes.map AppJs.Box.pos) = some [⟨1, 2⟩] ∧
    ((AppJs.parseMap scenarioMap).bind AppJs.toDState).map
        (fun s => s.goals) = some [⟨2, 3⟩] := by
  exact ⟨by decide, by decide, by decide⟩

/-- C1 (amended): on the documented scenario map the parsed initial state
has the mover at `(3,2)`, the box at `(2,2)` and the goal at `(2,3)`, and
replaying the path `["U","L","D"]` action-by-action via `applyMove` leaves
the box on the goal cell and makes `isGoal` return `true`. -/
theorem replay_solving_path_succeeds :
    ((AppJs.parseMap scenarioMap).bind AppJs.toDState).map
        (fun s => (s.player, s.boxes.map AppJs.Box.pos, s.goals))
      = some (⟨3, 2⟩, [⟨2, 2⟩], [⟨2, 3⟩]) ∧
    ((AppJs.parseMap scenarioMap).bind AppJs.toDState).map
        (fun s => ((AppJs.replay s [.U, .L, .D]).boxes.map AppJs.Box.pos,
                   AppJs.isGoal (AppJs.replay s [.U, .L, .D])))
      = some ([⟨2, 3⟩], true) := by
  exact ⟨by decide, by decide⟩

/-- C3: in both revisions, the goal test returns `true` iff every coordinate
in the state's box list is a member of the state's goal list. -/
theorem isGoal_iff_boxes_on_goals :
    (∀ s : AppJs.DState, AppJs.isGoal s = true ↔ ∀ b ∈ s.boxes, AppJs.Box.pos b ∈ s.goals) ∧
    (∀ s : PartZero.DState, PartZero.isGoal s = true ↔ ∀ b ∈ s.boxes, b ∈ s.goals) := by
  constructor
  · intro s
    simp only [AppJs.isGoal, List.all_eq_true]
    refine forall₂_congr fun b _ => ?_
    simpa using any_coordEq_iff_mem (AppJs.Box.pos b) s.goals
  · intro s
    simp only [PartZero.isGoal, List.all_eq_true]
    refine forall₂_congr fun b _ => ?_
    simpa using any_coordEq_iff_mem b s.goals

/-- C7: in both revisions, applying any move to any state leaves the length
of the box list unchanged — boxes are neither created nor destroyed. -/
theorem applyMove_preserves_box_count :
    (∀ (s : AppJs.DState) (m : Move), (AppJs.applyMove s m).boxes.length = s.boxes.length) ∧
    (∀ (s : PartZero.DState) (m : Move),
      (PartZero.applyMove s m).boxes.length = s.boxes.length) := by
  constructor
  · intro s m
    simp only [AppJs.applyMove]
    split <;> simp
  · intro s m
    simp only [PartZero.applyMove]
    split <;> simp

/-- C10: a state with an empty box list passes the goal test vacuously, in
both revisions, while the validation component's at-least-one-box check
(modelled from the spec) rejects a definition with zero boxes. -/
theorem empty_boxes_vacuously_solved :
    (∀ s : AppJs.DState, s.boxes = [] →
        AppJs.isGoal s = true ∧ specHasAtLeastOneBox s.boxes.length = false) ∧
    (∀ s : PartZero.DState, s.boxes = [] →
        PartZero.isGoal s = true ∧ specHasAtLeastOneBox s.boxes.length = false) := by
  constructor
  · intro s h
    simp [AppJs.isGoal, h, specHasAtLeastOneBox]
  · intro s h
    simp [PartZero.isGoal, h, specHasAtLeastOneBox]

/-- Witness for `empty_boxes_vacuously_solved` at a concrete box-free
state. -/
theorem empty_boxes_vacuously_solved_witness :
    AppJs.isGoal ⟨⟨0, 0⟩, [], [], [], 0, 0, []⟩ = true ∧
    specHasAtLeastOneBox ([] : List AppJs.Box).length = false :=
  empty_boxes_vacuously_solved.1 ⟨⟨0, 0⟩, [], [], [], 0, 0, []⟩ rfl

/-- C5 (counterexample): the parsers of both revisions return an ordinary
parsed definition — they do not fail — on a map with two mover symbols and
on a map with no mover symbol. -/
theorem parseMap_returns_on_malformed_maps :
    (AppJs.parseMap twoMoverMap).isSome = true ∧
    (AppJs.parseMap noMoverMap).isSome = true ∧
    PartZero.parseMap twoMoverMap =
      { player := some ⟨1, 0⟩, boxes := [], goals := [], walls := [], width := 2, height := 1 } ∧
    (PartZero.parseMap noMoverMap).player = none := by
  exact ⟨by decide, by decide, by decide, by decide⟩

/-- C6 (counterexample): `App.js`'s `parseMap` records as width the length
of the FIRST row (`map[0].length`), not the maximum row length: on the
ragged map `["##", "####"]` it records width `2` although a row of length
`4` is present. -/
theorem appJs_width_not_max_row_length :
    (AppJs.parseMap raggedMap).map AppJs.PDef.width = some 2 ∧
    ("####".toList ∈ raggedMap ∧ "####".toList.length = 4) ∧
    (2 : Nat) ≠ 4 := by
  exact ⟨by decide, by decide, by decide⟩

/-- The scan step of `App.js`'s parser records a mover exactly at the mover
symbols, overwriting whatever was recorded before. -/
theorem appJs_parseStep_player (acc : AppJs.ParseAcc) (cell : Nat × Nat × Char) :
    (AppJs.parseStep acc cell).player =
      if cell.2.2 = '@' ∨ cell.2.2 = '+' then some ⟨cell.1, cell.2.1⟩ else acc.player := by
  simp only [AppJs.parseStep]
  split_ifs <;> rfl

/-- The scan step of `App.js`'s parser appends a wall exactly at `'#'`. -/
theorem appJs_parseStep_walls (acc : AppJs.ParseAcc) (cell : Nat × Nat × Char) :
    (AppJs.parseStep acc cell).walls =
      acc.walls ++ (if cell.2.2 = '#' then [(⟨cell.1, cell.2.1⟩ : Coord)] else []) := by
  simp only [AppJs.parseStep]
  split_ifs <;> simp

/-- The scan step of `App.js`'s parser appends a goal exactly at the goal
symbols. -/
theorem appJs_parseStep_goals (acc : AppJs.ParseAcc) (cell : Nat × Nat × Char) :
    (AppJs.parseStep acc cell).goals =
      acc.goals ++
        (if cell.2.2 = '.' ∨ cell.2.2 = '*' ∨ cell.2.2 = '+'
         then [(⟨cell.1, cell.2.1⟩ : Coord)] else []) := by
  simp only [AppJs.parseStep]
  split_ifs <;> simp

/-- The scan step of `App.js`'s parser appends a box position exactly at the
box symbols. -/
theorem appJs_parseStep_boxesPos (acc : AppJs.ParseAcc) (cell : Nat × Nat × Char) :
    (AppJs.parseStep acc cell).boxes.map AppJs.Box.pos =
      acc.boxes.map AppJs.Box.pos ++
        (if cell.2.2 = '$' ∨ cell.2.2 = '*' then [(⟨cell.1, cell.2.1⟩ : Coord)] else []) := by
  simp only [AppJs.parseStep]
  split_ifs <;> simp [AppJs.Box.pos]

/-- Folding `App.js`'s scan step over a cell list: the recorded mover is the
last mover symbol scanned, or the incoming accumulator's. -/
theorem appJs_foldl_player (cells : List (Nat × Nat × Char)) (acc : AppJs.ParseAcc) :
    (cells.foldl AppJs.parseStep acc).player = (moverCells cells).getLast?.or acc.player := by
  induction cells generalizing acc with
  | nil => simp [moverCells]
  | cons cell cs ih =>
    rw [List.foldl_cons, ih]
    by_cases h : cell.2.2 = '@' ∨ cell.2.2 = '+'
    · have h1 : moverCells (cell :: cs) = ⟨cell.1, cell.2.1⟩ :: moverCells cs := by
        simp only [moverCells, List.filterMap_cons, if_pos h]
      rw [h1, appJs_parseStep_player, if_pos h, List.getLast?_cons, Option.or_some]
      cases hl : (moverCells cs).getLast? <;> simp
    · have h1 : moverCells (cell :: cs) = moverCells cs := by
        simp only [moverCells, List.filterMap_cons, if_neg h]
      rw [h1, appJs_parseStep_player, if_neg h]

/-- Folding `App.js`'s scan step over a cell list appends the wall cells in
scan order. -/
theorem appJs_foldl_walls (cells : List (Nat × Nat × Char)) (acc : AppJs.ParseAcc) :
    (cells.foldl AppJs.parseStep acc).walls = acc.walls ++ wallCells cells := by
  induction cells generalizing acc with
  | nil => simp [wallCells]
  | cons cell cs ih =>
    rw [List.foldl_cons, ih, appJs_parseStep_walls]
    by_cases h : cell.2.2 = '#'
    · have h1 : wallCells (cell :: cs) = ⟨cell.1, cell.2.1⟩ :: wallCells cs := by
        simp only [wallCells, List.filterMap_cons, if_pos h]
      rw [h1, if_pos h]
      simp
    · have h1 : wallCells (cell :: cs) = wallCells cs := by
        simp only [wallCells, List.filterMap_cons, if_neg h]
      rw [h1, if_neg h]
      simp

/-- Folding `App.js`'s scan step over a cell list appends the goal cells in
scan order. -/
theorem appJs_foldl_goals (cells : List (Nat × Nat × Char)) (acc : AppJs.ParseAcc) :
    (cells.foldl AppJs.parseStep acc).goals = acc.goals ++ goalCells cells := by
  induction cells generalizing acc with
  | nil => simp [goalCells]
  | cons cell cs ih =>
    rw [List.foldl_cons, ih, appJs_parseStep_goals]
    by_cases h : cell.2.2 = '.' ∨ cell.2.2 = '*' ∨ cell.2.2 = '+'
    · have h1 : goalCells (cell :: cs) = ⟨cell.1, cell.2.1⟩ :: goalCells cs := by
        simp only [goalCells, List.filterMap_cons, if_pos h]
      rw [h1, if_pos h]
      simp
    · have h1 : goalCells (cell :: cs) = goalCells cs := by
        simp only [goalCells, List.filterMap_cons, if_neg h]
      rw [h1, if_neg h]
      simp

/-- Folding `App.js`'s scan step over a cell list appends the box positions
in scan order. -/
theorem appJs_foldl_boxesPos (cells : List (Nat × Nat × Char)) (acc : AppJs.ParseAcc) :
    (cells.foldl AppJs.parseStep acc).boxes.map AppJs.Box.pos =
      acc.boxes.map AppJs.Box.pos ++ boxCells cells := by
  induction cells generalizing acc with
  | nil => simp [boxCells]
  | cons cell cs ih =>
    rw [List.foldl_cons, ih, appJs_parseStep_boxesPos]
    by_cases h : cell.2.2 = '$' ∨ cell.2.2 = '*'
    · have h1 : boxCells (cell :: cs) = ⟨cell.1, cell.2.1⟩ :: boxCells cs := by
        simp only [boxCells, List.filterMap_cons, if_pos h]
      rw [h1, if_pos h]
      simp
    · have h1 : boxCells (cell :: cs) = boxCells cs := by
        simp only [boxCells, List.filterMap_cons, if_neg h]
      rw [h1, if_neg h]
      simp

/-- The scan step of `part_000`'s parser records a mover exactly at the
mover symbols, overwriting whatever was recorded before. -/
theorem partZero_parseStep_player (acc : PartZero.ParseAcc) (cell : Nat × Nat × Char) :
    (PartZero.parseStep acc cell).player =
      if cell.2.2 = '@' ∨ cell.2.2 = '+' then some ⟨cell.1, cell.2.1⟩ else acc.player := by
  simp only [PartZero.parseStep]
  split_ifs <;> rfl

/-- The scan step of `part_000`'s parser appends a wall exactly at `'#'`. -/
theorem partZero_parseStep_walls (acc : PartZero.ParseAcc) (cell : Nat × Nat × Char) :
    (PartZero.parseStep acc cell).walls =
      acc.walls ++ (if cell.2.2 = '#' then [(⟨cell.1, cell.2.1⟩ : Coord)] else []) := by
  simp only [PartZero.parseStep]
  split_ifs <;> simp

/-- The scan step of `part_000`'s parser appends a goal exactly at the goal
symbols. -/
theorem partZero_parseStep_goals (acc : PartZero.ParseAcc) (cell : Nat × Nat × Char) :
    (PartZero.parseStep acc cell).goals =
      acc.goals ++
        (if cell.2.2 = '.' ∨ cell.2.2 = '*' ∨ cell.2.2 = '+'
         then [(⟨cell.1, cell.2.1⟩ : Coord)] else []) := by
  simp only [PartZero.parseStep]
  split_ifs <;> simp

/-- The scan step of `part_000`'s parser appends a box exactly at the box
symbols. -/
theorem partZero_parseStep_boxes (acc : PartZero.ParseAcc) (cell : Nat × Nat × Char) :
    (PartZero.parseStep acc cell).boxes =
      acc.boxes ++
        (if cell.2.2 = '$' ∨ cell.2.2 = '*' then [(⟨cell.1, cell.2.1⟩ : Coord)] else []) := by
  simp only [PartZero.parseStep]
  split_ifs <;> simp

/-- Folding `part_000`'s scan step over a cell list: the recorded mover is
the last mover symbol scanned, or the incoming accumulator's. -/
theorem partZero_foldl_player (cells : List (Nat × Nat × Char)) (acc : PartZero.ParseAcc) :
    (cells.foldl PartZero.parseStep acc).player = (moverCells cells).getLast?.or acc.player := by
  induction cells generalizing acc with
  | nil => simp [moverCells]
  | cons cell cs ih =>
    rw [List.foldl_cons, ih]
    by_cases h : cell.2.2 = '@' ∨ cell.2.2 = '+'
    · have h1 : moverCells (cell :: cs) = ⟨cell.1, cell.2.1⟩ :: moverCells cs := by
        simp only [moverCells, List.filterMap_cons, if_pos h]
      rw [h1, partZero_parseStep_player, if_pos h, List.getLast?_cons, Option.or_some]
      cases hl : (moverCells cs).getLast? <;> simp
    · have h1 : moverCells (cell :: cs) = moverCells cs := by
        simp only [moverCells, List.filterMap_cons, if_neg h]
      rw [h1, partZero_parseStep_player, if_neg h]

/-- Folding `part_000`'s scan step over a cell list appends the wall cells
in scan order. -/
theorem partZero_foldl_walls (cells : List (Nat × Nat × Char)) (acc : PartZero.ParseAcc) :
    (cells.foldl PartZero.parseStep acc).walls = acc.walls ++ wallCells cells := by
  induction cells generalizing acc with
  | nil => simp [wallCells]
  | cons cell cs ih =>
    rw [List.foldl_cons, ih, partZero_parseStep_walls]
    by_cases h : cell.2.2 = '#'
    · have h1 : wallCells (cell :: cs) = ⟨cell.1, cell.2.1⟩ :: wallCells cs := by
        simp only [wallCells, List.filterMap_cons, if_pos h]
      rw [h1, if_pos h]
      simp
    · have h1 : wallCells (cell :: cs) = wallCells cs := by
        simp only [wallCells, List.filterMap_cons, if_neg h]
      rw [h1, if_neg h]
      simp

/-- Folding `part_000`'s scan step over a cell list appends the goal cells
in scan order. -/
theorem partZero_foldl_goals (cells : List (Nat × Nat × Char)) (acc : PartZero.ParseAcc) :
    (cells.foldl PartZero.parseStep acc).goals = acc.goals ++ goalCells cells := by
  induction cells generalizing acc with
  | nil => simp [goalCells]
  | cons cell cs ih =>
    rw [List.foldl_cons, ih, partZero_parseStep_goals]
    by_cases h : cell.2.2 = '.' ∨ cell.2.2 = '*' ∨ cell.2.2 = '+'
    · have h1 : goalCells (cell :: cs) = ⟨cell.1, cell.2.1⟩ :: goalCells cs := by
        simp only [goalCells, List.filterMap_cons, if_pos h]
      rw [h1, if_pos h]
      simp
    · have h1 : goalCells (cell :: cs) = goalCells cs := by
        simp only [goalCells, List.filterMap_cons, if_neg h]
      rw [h1, if_neg h]
      simp

/-- Folding `part_000`'s scan step over a cell list appends the box cells in
scan order. -/
theorem partZero_foldl_boxes (cells : List (Nat × Nat × Char)) (acc : PartZero.ParseAcc) :
    (cells.foldl PartZero.parseStep acc).boxes = acc.boxes ++ boxCells cells := by
  induction cells generalizing acc with
  | nil => simp [boxCells]
  | cons cell cs ih =>
    rw [List.foldl_cons, ih, partZero_parseStep_boxes]
    by_cases h : cell.2.2 = '$' ∨ cell.2.2 = '*'
    · have h1 : boxCells (cell :: cs) = ⟨cell.1, cell.2.1⟩ :: boxCells cs := by
        simp only [boxCells, List.filterMap_cons, if_pos h]
      rw [h1, if_pos h]
      simp
    · have h1 : boxCells (cell :: cs) = boxCells cs := by
        simp only [boxCells, List.filterMap_cons, if_neg h]
      rw [h1, if_neg h]
      simp

/-- Equal coordinates built from natural column/row indices have equal
indices. -/
theorem coordNat_inj {x y x' y' : Nat} (h : (⟨x, y⟩ : Coord) = ⟨x', y'⟩) :
    x = x' ∧ y = y' := by
  injection h with hx hy
  exact ⟨by exact_mod_cast hx, by exact_mod_cast hy⟩

/-- Any coordinate selected from a cell list by a symbol filter is the
position of one of the cells. -/
theorem mem_posFilter {c : Coord} {cells : List (Nat × Nat × Char)}
    {p : Nat × Nat × Char → Prop} [DecidablePred p]
    (h : c ∈ cells.filterMap fun cell => if p cell then some (⟨cell.1, cell.2.1⟩ : Coord)
        else none) :
    ∃ cell ∈ cells, (⟨cell.1, cell.2.1⟩ : Coord) = c := by
  rw [List.mem_filterMap] at h
  obtain ⟨a, ha, hfa⟩ := h
  by_cases hp : p a
  · rw [if_pos hp] at hfa
    exact ⟨a, ha, Option.some.inj hfa⟩
  · rw [if_neg hp] at hfa
    cases hfa

/-- Every cell of the row-major flattening lies within its own row: its
column index is less than the length of the row it came from. -/
theorem mem_cellsOf {x y : Nat} {c : Char} {rows : List (List Char)}
    (h : (x, y, c) ∈ cellsOf rows) : x < (rows.getD y []).length := by
  simp only [cellsOf, List.mem_flatten, List.mem_map] at h
  obtain ⟨l, ⟨yr, hyr, rfl⟩, hmem⟩ := h
  simp only [List.mem_map] at hmem
  obtain ⟨xc, hxc, heq⟩ := hmem
  obtain ⟨h1, h2, h3⟩ : xc.1 = x ∧ yr.1 = y ∧ xc.2 = c := by
    simpa [Prod.ext_iff] using heq
  have hrow : rows[yr.1]? = some yr.2 := List.mem_enum_iff_getElem?.mp hyr
  have hcell : yr.2[xc.1]? = some xc.2 := List.mem_enum_iff_getElem?.mp hxc
  obtain ⟨hlt, -⟩ := List.getElem?_eq_some_iff.mp hcell
  have hgd : rows.getD y [] = yr.2 := by
    rw [List.getD_eq_getElem?_getD, ← h2, hrow]
    rfl
  rw [hgd, ← h1]
  exact hlt

/-- Nothing is recorded beyond the end of a row: a position whose column
index is at least its own row's length appears in none of the recorded cell
lists. -/
theorem cellsOf_not_recorded {rows : List (List Char)} {x y : Nat}
    (hxy : (rows.getD y []).length ≤ x) :
    (⟨x, y⟩ : Coord) ∉ wallCells (cellsOf rows) ∧
    (⟨x, y⟩ : Coord) ∉ boxCells (cellsOf rows) ∧
    (⟨x, y⟩ : Coord) ∉ goalCells (cellsOf rows) ∧
    (⟨x, y⟩ : Coord) ∉ moverCells (cellsOf rows) := by
  refine ⟨?_, ?_, ?_, ?_⟩ <;> intro hmem <;>
    [rw [wallCells] at hmem; rw [boxCells] at hmem; rw [goalCells] at hmem;
     rw [moverCells] at hmem] <;>
    · obtain ⟨cell, hc, he⟩ := mem_posFilter hmem
      obtain ⟨h1, h2⟩ := coordNat_inj he
      rw [← h1, ← h2] at hxy
      have := mem_cellsOf (x := cell.1) (y := cell.2.1) (c := cell.2.2) (by simpa using hc)
      omega

/-- The fields of `part_000`'s parsed state are exactly the symbol cells of
the row-major scan, with the mover being the last mover symbol scanned. -/
theorem partZero_parseMap_fields (rows : List (List Char)) :
    (PartZero.parseMap rows).walls = wallCells (cellsOf rows) ∧
    (PartZero.parseMap rows).boxes = boxCells (cellsOf rows) ∧
    (PartZero.parseMap rows).goals = goalCells (cellsOf rows) ∧
    (PartZero.parseMap rows).player = (moverCells (cellsOf rows)).getLast? := by
  refine ⟨?_, ?_, ?_, ?_⟩ <;>
    simp [PartZero.parseMap, partZero_foldl_walls, partZero_foldl_boxes,
      partZero_foldl_goals, partZero_foldl_player, Option.or_none]

/-- The fields of `App.js`'s parsed definition are exactly the symbol cells
of the row-major scan, with the mover being the last mover symbol scanned. -/
theorem appJs_parseMap_fields (rows : List (List Char)) (st : AppJs.PDef)
    (h : AppJs.parseMap rows = some st) :
    st.walls = wallCells (cellsOf rows) ∧
    st.boxes.map AppJs.Box.pos = boxCells (cellsOf rows) ∧
    st.goals = goalCells (cellsOf rows) ∧
    st.player = (moverCells (cellsOf rows)).getLast? := by
  cases rows with
  | nil => simp [AppJs.parseMap] at h
  | cons r0 rest =>
    simp only [AppJs.parseMap] at h
    obtain rfl := Option.some.inj h
    refine ⟨?_, ?_, ?_, ?_⟩ <;>
      simp [appJs_foldl_walls, appJs_foldl_boxesPos, appJs_foldl_goals,
        appJs_foldl_player, Option.or_none]

/-- Every element of a list is at most its `foldr Nat.max 0`. -/
theorem le_foldr_max {l : List Nat} {n : Nat} (h : n ∈ l) : n ≤ l.foldr Nat.max 0 := by
  induction l with
  | nil => cases h
  | cons a t ih =>
    rcases List.mem_cons.mp h with rfl | h'
    · exact Nat.le_max_left _ _
    · exact le_trans (ih h') (Nat.le_max_right _ _)

/-- The `foldr Nat.max 0` of a non-empty list is one of its elements. -/
theorem foldr_max_mem {l : List Nat} (h : l ≠ []) : l.foldr Nat.max 0 ∈ l := by
  induction l with
  | nil => cases h rfl
  | cons a t ih =>
    cases t with
    | nil => simp
    | cons b t' =>
      rw [List.foldr_cons]
      rcases Nat.le_total a ((b :: t').foldr Nat.max 0) with hle | hle
      · have hmx : a.max ((b :: t').foldr Nat.max 0) = (b :: t').foldr Nat.max 0 :=
          Nat.max_eq_right hle
        rw [hmx]
        exact List.mem_cons_of_mem _ (ih (by simp))
      · have hmx : a.max ((b :: t').foldr Nat.max 0) = a := Nat.max_eq_left hle
        rw [hmx]
        simp

/-- C6 (amended): on every non-empty map, `part_000`'s `parseMap` records as
width the maximum row length (every row is no longer, and some row attains
it), whereas `App.js`'s `parseMap` records the FIRST row's length; in both
revisions cells of a shorter row beyond its own end are treated as floor —
no wall, box, goal, or mover is recorded there. -/
theorem parse_width_and_ragged_rows :
    ∀ rows : List (List Char), rows ≠ [] →
      (∀ r ∈ rows, r.length ≤ (PartZero.parseMap rows).width) ∧
      (∃ r ∈ rows, r.length = (PartZero.parseMap rows).width) ∧
      (∀ st, AppJs.parseMap rows = some st → st.width = (rows.headD []).length) ∧
      (∀ x y : Nat, (rows.getD y []).length ≤ x →
        ((⟨x, y⟩ : Coord) ∉ (PartZero.parseMap rows).walls ∧
         (⟨x, y⟩ : Coord) ∉ (PartZero.parseMap rows).boxes ∧
         (⟨x, y⟩ : Coord) ∉ (PartZero.parseMap rows).goals ∧
         (PartZero.parseMap rows).player ≠ some ⟨x, y⟩)) ∧
      (∀ x y : Nat, (rows.getD y []).length ≤ x → ∀ st, AppJs.parseMap rows = some st →
        ((⟨x, y⟩ : Coord) ∉ st.walls ∧
         (⟨x, y⟩ : Coord) ∉ st.boxes.map AppJs.Box.pos ∧
         (⟨x, y⟩ : Coord) ∉ st.goals ∧
         st.player ≠ some ⟨x, y⟩)) := by
  intro rows hne
  obtain ⟨hw, hb, hg, hp⟩ := partZero_parseMap_fields rows
  have hwidth : (PartZero.parseMap rows).width = (rows.map List.length).foldr Nat.max 0 := rfl
  refine ⟨?_, ?_, ?_, ?_, ?_⟩
  · intro r hr
    rw [hwidth]
    exact le_foldr_max (List.mem_map_of_mem List.length hr)
  · have hmem := foldr_max_mem (l := rows.map List.length) (by simpa using hne)
    obtain ⟨r, hr, hlen⟩ := List.mem_map.mp hmem
    exact ⟨r, hr, by rw [hwidth, hlen]⟩
  · intro st hst
    cases rows with
    | nil => cases hne rfl
    | cons r0 rest =>
      simp only [AppJs.parseMap] at hst
      obtain rfl := Option.some.inj hst
      rfl
  · intro x y hxy
    obtain ⟨w1, w2, w3, w4⟩ := cellsOf_not_recorded hxy
    refine ⟨by rw [hw]; exact w1, by rw [hb]; exact w2, by rw [hg]; exact w3, ?_⟩
    intro hps
    rw [hp] at hps
    exact w4 (List.mem_of_getLast?_eq_some hps)
  · intro x y hxy st hst
    obtain ⟨aw, ab, ag, ap⟩ := appJs_parseMap_fields rows st hst
    obtain ⟨w1, w2, w3, w4⟩ := cellsOf_not_recorded hxy
    refine ⟨by rw [aw]; exact w1, by rw [ab]; exact w2, by rw [ag]; exact w3, ?_⟩
    intro hps
    rw [ap] at hps
    exact w4 (List.mem_of_getLast?_eq_some hps)

/-- Witness for `parse_width_and_ragged_rows` on the concrete ragged map. -/
theorem parse_width_and_ragged_rows_witness :
    (∀ r ∈ raggedMap, r.length ≤ (PartZero.parseMap raggedMap).width) ∧
    (∀ st, AppJs.parseMap raggedMap = some st → st.width = (raggedMap.headD []).length) := by
  have h := parse_width_and_ragged_rows raggedMap (by decide)
  exact ⟨h.1, h.2.2.1⟩

/-- C5 (amended): neither revision's parser ever signals a malformed-map
failure over mover counts: on every non-empty map `App.js`'s `parseMap`
returns an ordinary parsed definition, and when no mover symbol is present
both parsers return a definition whose mover is absent (`null`). -/
theorem parseMap_never_fails_on_mover_count :
    ∀ rows : List (List Char), rows ≠ [] →
      (AppJs.parseMap rows).isSome = true ∧
      (moverCells (cellsOf rows) = [] →
        (PartZero.parseMap rows).player = none ∧
        ∀ st, AppJs.parseMap rows = some st → st.player = none) := by
  intro rows hne
  constructor
  · cases rows with
    | nil => cases hne rfl
    | cons r0 rest => simp [AppJs.parseMap]
  · intro hm
    constructor
    · rw [(partZero_parseMap_fields rows).2.2.2, hm]
      rfl
    · intro st hst
      rw [(appJs_parseMap_fields rows st hst).2.2.2, hm]
      rfl

/-- Witness for `parseMap_never_fails_on_mover_count` on the concrete
mover-free map. -/
theorem parseMap_never_fails_on_mover_count_witness :
    (AppJs.parseMap noMoverMap).isSome = true ∧
    (PartZero.parseMap noMoverMap).player = none := by
  have h := parseMap_never_fails_on_mover_count noMoverMap (by decide)
  exact ⟨h.1, (h.2 (by decide)).1⟩

/-- C9: on a map with two or more mover symbols both parsers return
normally and record as mover the LAST mover symbol in row-major scan order;
on a map with no mover symbol they return a definition whose mover is
absent (`null`). -/
theorem parser_records_last_mover :
    ∀ rows : List (List Char),
      (2 ≤ (moverCells (cellsOf rows)).length →
        (PartZero.parseMap rows).player = (moverCells (cellsOf rows)).getLast? ∧
        ∃ st, AppJs.parseMap rows = some st ∧
          st.player = (moverCells (cellsOf rows)).getLast?) ∧
      (moverCells (cellsOf rows) = [] →
        (PartZero.parseMap rows).player = none ∧
        (PartZero.parseMap rows).player = (moverCells (cellsOf rows)).getLast?) := by
  intro rows
  constructor
  · intro h2
    refine ⟨(partZero_parseMap_fields rows).2.2.2, ?_⟩
    cases rows with
    | nil =>
      have : moverCells (cellsOf ([] : List (List Char))) = [] := rfl
      rw [this] at h2
      simp at h2
    | cons r0 rest =>
      obtain ⟨st, hst⟩ : ∃ st, AppJs.parseMap (r0 :: rest) = some st := ⟨_, rfl⟩
      exact ⟨st, hst, (appJs_parseMap_fields _ st hst).2.2.2⟩
  · intro hm
    refine ⟨?_, (partZero_parseMap_fields rows).2.2.2⟩
    rw [(partZero_parseMap_fields rows).2.2.2, hm]
    rfl

/-- Witness for `parser_records_last_mover` on the concrete two-mover map:
the recorded mover is the second of the two mover symbols. -/
theorem parser_records_last_mover_witness :
    (PartZero.parseMap twoMoverMap).player = (moverCells (cellsOf twoMoverMap)).getLast? ∧
    (PartZero.parseMap twoMoverMap).player = some ⟨1, 0⟩ := by
  have h := (parser_records_last_mover twoMoverMap).1 (by decide)
  exact ⟨h.1, by decide⟩

/-- The box-search predicate of `App.js`'s `applyMove` holds of a box
exactly when the box sits on the target cell. -/
theorem appJs_pred_iff (s : AppJs.DState) (m : Move) (b : AppJs.Box) :
    (b.x == s.player.x + (delta m).1 && b.y == s.player.y + (delta m).2) = true ↔
      AppJs.Box.pos b = AppJs.target s m := by
  simp [Bool.and_eq_true, beq_iff_eq, AppJs.Box.pos, AppJs.target, Coord.mk.injEq]

/-- `App.js`'s `applyMove` always moves the mover to the target cell. -/
theorem appJs_applyMove_player (s : AppJs.DState) (m : Move) :
    (AppJs.applyMove s m).player = AppJs.target s m := by
  simp only [AppJs.applyMove]
  split <;> rfl

/-- The box list produced by `App.js`'s `applyMove`, as a function of the
box search. -/
theorem appJs_applyMove_boxes (s : AppJs.DState) (m : Move) :
    (AppJs.applyMove s m).boxes =
      match s.boxes.findIdx? (fun b =>
          b.x == s.player.x + (delta m).1 && b.y == s.player.y + (delta m).2) with
      | none => s.boxes
      | some i => s.boxes.set i
          ⟨(AppJs.beyond s m).x, (AppJs.beyond s m).y, (s.boxes.getD i default).id⟩ := by
  simp only [AppJs.applyMove]
  cases s.boxes.findIdx? (fun b =>
      b.x == s.player.x + (delta m).1 && b.y == s.player.y + (delta m).2) <;> rfl

/-- If no box sits on the target cell, `App.js`'s box search fails. -/
theorem appJs_findIdx?_eq_none (s : AppJs.DState) (m : Move)
    (hn : ∀ b ∈ s.boxes, AppJs.Box.pos b ≠ AppJs.target s m) :
    s.boxes.findIdx? (fun b =>
      b.x == s.player.x + (delta m).1 && b.y == s.player.y + (delta m).2) = none := by
  rw [List.findIdx?_eq_none_iff]
  intro b hb
  exact Bool.eq_false_iff.mpr fun hpb => hn b hb ((appJs_pred_iff s m b).mp hpb)

/-- If the box of least index `i` sits on the target cell, `App.js`'s box
search returns `i`. -/
theorem appJs_findIdx?_eq_some (s : AppJs.DState) (m : Move) (i : Nat)
    (hi : i < s.boxes.length)
    (hpos : AppJs.Box.pos (s.boxes.get ⟨i, hi⟩) = AppJs.target s m)
    (hmin : ∀ j, (hj : j < s.boxes.length) → j < i →
      AppJs.Box.pos (s.boxes.get ⟨j, hj⟩) ≠ AppJs.target s m) :
    s.boxes.findIdx? (fun b =>
      b.x == s.player.x + (delta m).1 && b.y == s.player.y + (delta m).2) = some i := by
  rw [List.findIdx?_eq_some_iff_getElem]
  refine ⟨hi, (appJs_pred_iff s m _).mpr hpos, ?_⟩
  intro j hji hpj
  exact hmin j (lt_trans hji hi) hji ((appJs_pred_iff s m _).mp hpj)

/-- The box-search predicate of `part_000`'s `applyMove` holds of a box
exactly when the box is the target cell. -/
theorem partZero_pred_iff (s : PartZero.DState) (m : Move) (b : Coord) :
    (b.x == s.player.x + (delta m).1 && b.y == s.player.y + (delta m).2) = true ↔
      b = PartZero.target s m := by
  cases b
  simp [Bool.and_eq_true, beq_iff_eq, PartZero.target, Coord.mk.injEq]

/-- `part_000`'s `applyMove` always moves the mover to the target cell. -/
theorem partZero_applyMove_player (s : PartZero.DState) (m : Move) :
    (PartZero.applyMove s m).player = PartZero.target s m :=
  rfl

/-- The box list produced by `part_000`'s `applyMove`, as a function of the
box search. -/
theorem partZero_applyMove_boxes (s : PartZero.DState) (m : Move) :
    (PartZero.applyMove s m).boxes =
      match s.boxes.findIdx? (fun b =>
          b.x == s.player.x + (delta m).1 && b.y == s.player.y + (delta m).2) with
      | none => s.boxes
      | some i => s.boxes.set i ⟨(PartZero.beyond s m).x, (PartZero.beyond s m).y⟩ :=
  rfl

/-- If no box is the target cell, `part_000`'s box search fails. -/
theorem partZero_findIdx?_eq_none (s : PartZero.DState) (m : Move)
    (hn : ∀ b ∈ s.boxes, b ≠ PartZero.target s m) :
    s.boxes.findIdx? (fun b =>
      b.x == s.player.x + (delta m).1 && b.y == s.player.y + (delta m).2) = none := by
  rw [List.findIdx?_eq_none_iff]
  intro b hb
  exact Bool.eq_false_iff.mpr fun hpb => hn b hb ((partZero_pred_iff s m b).mp hpb)

/-- If the box of least index `i` is the target cell, `part_000`'s box
search returns `i`. -/
theorem partZero_findIdx?_eq_some (s : PartZero.DState) (m : Move) (i : Nat)
    (hi : i < s.boxes.length)
    (hpos : s.boxes.get ⟨i, hi⟩ = PartZero.target s m)
    (hmin : ∀ j, (hj : j < s.boxes.length) → j < i →
      s.boxes.get ⟨j, hj⟩ ≠ PartZero.target s m) :
    s.boxes.findIdx? (fun b =>
      b.x == s.player.x + (delta m).1 && b.y == s.player.y + (delta m).2) = some i := by
  rw [List.findIdx?_eq_some_iff_getElem]
  refine ⟨hi, (partZero_pred_iff s m _).mpr hpos, ?_⟩
  intro j hji hpj
  exact hmin j (lt_trans hji hi) hji ((partZero_pred_iff s m _).mp hpj)

/-- C2: in both revisions, applying a move sets the new mover position to
`mover + delta`; when no box is at the target cell the box list is
unchanged, and when the (first) box at the target cell has index `i`, that
box is relocated to `target + delta` (keeping its `id` in `App.js`) while
every other index keeps its box. -/
theorem applyMove_step_or_push :
    (∀ (s : AppJs.DState) (m : Move),
      (AppJs.applyMove s m).player = AppJs.target s m ∧
      ((∀ b ∈ s.boxes, AppJs.Box.pos b ≠ AppJs.target s m) →
        (AppJs.applyMove s m).boxes = s.boxes) ∧
      (∀ i, (hi : i < s.boxes.length) →
        AppJs.Box.pos (s.boxes.get ⟨i, hi⟩) = AppJs.target s m →
        (∀ j, (hj : j < s.boxes.length) → j < i →
          AppJs.Box.pos (s.boxes.get ⟨j, hj⟩) ≠ AppJs.target s m) →
        (AppJs.applyMove s m).boxes[i]? =
            some ⟨(AppJs.beyond s m).x, (AppJs.beyond s m).y, (s.boxes.get ⟨i, hi⟩).id⟩ ∧
        ∀ j, j ≠ i → (AppJs.applyMove s m).boxes[j]? = s.boxes[j]?)) ∧
    (∀ (s : PartZero.DState) (m : Move),
      (PartZero.applyMove s m).player = PartZero.target s m ∧
      ((∀ b ∈ s.boxes, b ≠ PartZero.target s m) →
        (PartZero.applyMove s m).boxes = s.boxes) ∧
      (∀ i, (hi : i < s.boxes.length) →
        s.boxes.get ⟨i, hi⟩ = PartZero.target s m →
        (∀ j, (hj : j < s.boxes.length) → j < i →
          s.boxes.get ⟨j, hj⟩ ≠ PartZero.target s m) →
        (PartZero.applyMove s m).boxes[i]? = some (PartZero.beyond s m) ∧
        ∀ j, j ≠ i → (PartZero.applyMove s m).boxes[j]? = s.boxes[j]?)) := by
  constructor
  · intro s m
    refine ⟨appJs_applyMove_player s m, ?_, ?_⟩
    · intro hnone
      rw [appJs_applyMove_boxes, appJs_findIdx?_eq_none s m hnone]
    · intro i hi hpos hmin
      have hboxes := appJs_applyMove_boxes s m
      rw [appJs_findIdx?_eq_some s m i hi hpos hmin] at hboxes
      have hgd : s.boxes.getD i default = s.boxes.get ⟨i, hi⟩ := by
        rw [List.getD_eq_getElem?_getD, List.getElem?_eq_getElem hi]
        rfl
      constructor
      · rw [hboxes, List.getElem?_set, if_pos rfl, if_pos hi, hgd]
      · intro j hj
        rw [hboxes, List.getElem?_set_ne (Ne.symm hj)]
  · intro s m
    refine ⟨partZero_applyMove_player s m, ?_, ?_⟩
    · intro hnone
      rw [partZero_applyMove_boxes, partZero_findIdx?_eq_none s m hnone]
    · intro i hi hpos hmin
      have hboxes := partZero_applyMove_boxes s m
      rw [partZero_findIdx?_eq_some s m i hi hpos hmin] at hboxes
      constructor
      · rw [hboxes, List.getElem?_set, if_pos rfl, if_pos hi]
      · intro j hj
        rw [hboxes, List.getElem?_set_ne (Ne.symm hj)]

/-- Witness for `applyMove_step_or_push`: on the concrete scenario state, a
left move pushes the single box from `(2,2)` to `(1,2)` and moves the mover
to `(2,2)`. -/
theorem applyMove_step_or_push_witness :
    (AppJs.applyMove AppJs.sampleState .L).player = AppJs.target AppJs.sampleState .L ∧
    (AppJs.applyMove AppJs.sampleState .L).boxes[0]? = some ⟨1, 2, 0⟩ ∧
    (PartZero.applyMove PartZero.sampleState .L).boxes[0]? = some ⟨1, 2⟩ := by
  have hA := applyMove_step_or_push.1 AppJs.sampleState .L
  have hP := applyMove_step_or_push.2 PartZero.sampleState .L
  have hA3 := (hA.2.2 0 (by decide) (by decide) (by intro j hj hji; omega)).1
  have hP3 := (hP.2.2 0 (by decide) (by decide) (by intro j hj hji; omega)).1
  refine ⟨hA.1, ?_, ?_⟩
  · rw [hA3]
    decide
  · rw [hP3]
    decide

/-- `App.js` box-occupancy test: some box has the given coordinates. -/
theorem appJs_hasBox_iff (s : AppJs.DState) (c : Coord) :
    AppJs.hasBox s c = true ↔ ∃ b ∈ s.boxes, AppJs.Box.pos b = c := by
  cases c with
  | mk cx cy =>
    simp [AppJs.hasBox, List.any_eq_true, Bool.and_eq_true, beq_iff_eq, AppJs.Box.pos,
      Coord.mk.injEq]

/-- `part_000` box-occupancy test: the cell is a member of the box list. -/
theorem partZero_hasBox_iff (s : PartZero.DState) (c : Coord) :
    PartZero.hasBox s c = true ↔ c ∈ s.boxes :=
  any_coordEq_iff_mem c s.boxes

/-- C4: in both revisions, applying a spec-legal direction to a state whose
box positions are pairwise distinct yields a state whose mover is not on a
wall, whose newly occupied box cell (the pushed box's destination) is not a
wall, and whose boxes again occupy pairwise distinct cells. -/
theorem legal_moves_safe :
    (∀ (s : AppJs.DState) (m : Move),
      AppJs.legalMove s m = true →
      (s.boxes.map AppJs.Box.pos).Nodup →
      ((AppJs.applyMove s m).player ∉ s.walls ∧
       (∀ b ∈ (AppJs.applyMove s m).boxes,
          AppJs.Box.pos b ∉ s.boxes.map AppJs.Box.pos → AppJs.Box.pos b ∉ s.walls) ∧
       ((AppJs.applyMove s m).boxes.map AppJs.Box.pos).Nodup)) ∧
    (∀ (s : PartZero.DState) (m : Move),
      PartZero.legalMove s m = true →
      s.boxes.Nodup →
      ((PartZero.applyMove s m).player ∉ s.walls ∧
       (∀ b ∈ (PartZero.applyMove s m).boxes, b ∉ s.boxes → b ∉ s.walls) ∧
       (PartZero.applyMove s m).boxes.Nodup)) := by
  constructor
  · intro s m hleg hnd
    rw [AppJs.legalMove, Bool.and_eq_true] at hleg
    obtain ⟨hW, hcond⟩ := hleg
    simp only [Bool.not_eq_true', AppJs.hasWall, decide_eq_false_iff_not] at hW
    have hplayer : (AppJs.applyMove s m).player ∉ s.walls := by
      rw [appJs_applyMove_player]
      exact hW
    by_cases hbox : AppJs.hasBox s (AppJs.target s m) = true
    · rw [if_pos hbox, Bool.and_eq_true] at hcond
      obtain ⟨hBW, hBB⟩ := hcond
      simp only [Bool.not_eq_true', AppJs.hasWall, decide_eq_false_iff_not] at hBW
      rw [Bool.not_eq_true'] at hBB
      obtain ⟨b0, hb0, hb0pos⟩ := (appJs_hasBox_iff s _).mp hbox
      have hany : (s.boxes.any fun b =>
          b.x == s.player.x + (delta m).1 && b.y == s.player.y + (delta m).2) = true := by
        rw [List.any_eq_true]
        exact ⟨b0, hb0, (appJs_pred_iff s m b0).mpr hb0pos⟩
      obtain ⟨i, hsome⟩ := Option.isSome_iff_exists.mp (by rw [List.findIdx?_isSome, hany])
      have hboxes := appJs_applyMove_boxes s m
      rw [hsome] at hboxes
      have hbeyond_not_box : AppJs.beyond s m ∉ s.boxes.map AppJs.Box.pos := by
        intro hmem
        obtain ⟨b, hb, hpos⟩ := List.mem_map.mp hmem
        have hcontra := (appJs_hasBox_iff _ _).mpr ⟨b, hb, hpos⟩
        rw [hBB] at hcontra
        cases hcontra
      refine ⟨hplayer, ?_, ?_⟩
      · intro b hbmem hnew
        rw [hboxes] at hbmem
        rcases List.mem_or_eq_of_mem_set hbmem with hold | rfl
        · exact absurd (List.mem_map_of_mem AppJs.Box.pos hold) hnew
        · exact hBW
      · rw [hboxes, List.map_set]
        exact List.Nodup.set hnd hbeyond_not_box
    · have hnone : s.boxes.findIdx? (fun b =>
          b.x == s.player.x + (delta m).1 && b.y == s.player.y + (delta m).2) = none := by
        rw [List.findIdx?_eq_none_iff]
        intro b hb
        refine Bool.eq_false_iff.mpr fun hpb => ?_
        exact hbox ((appJs_hasBox_iff s _).mpr ⟨b, hb, (appJs_pred_iff s m b).mp hpb⟩)
      have hboxes := appJs_applyMove_boxes s m
      rw [hnone] at hboxes
      refine ⟨hplayer, ?_, ?_⟩
      · intro b hbmem hnew
        rw [hboxes] at hbmem
        exact absurd (List.mem_map_of_mem AppJs.Box.pos hbmem) hnew
      · rw [hboxes]
        exact hnd
  · intro s m hleg hnd
    rw [PartZero.legalMove, Bool.and_eq_true] at hleg
    obtain ⟨hW, hcond⟩ := hleg
    simp only [Bool.not_eq_true', PartZero.hasWall, decide_eq_false_iff_not] at hW
    have hplayer : (PartZero.applyMove s m).player ∉ s.walls := by
      rw [partZero_applyMove_player]
      exact hW
    by_cases hbox : PartZero.hasBox s (PartZero.target s m) = true
    · rw [if_pos hbox, Bool.and_eq_true] at hcond
      obtain ⟨hBW, hBB⟩ := hcond
      simp only [Bool.not_eq_true', PartZero.hasWall, decide_eq_false_iff_not] at hBW
      rw [Bool.not_eq_true'] at hBB
      have hb0 := (partZero_hasBox_iff s _).mp hbox
      have hany : (s.boxes.any fun b =>
          b.x == s.player.x + (delta m).1 && b.y == s.player.y + (delta m).2) = true := by
        rw [List.any_eq_true]
        exact ⟨_, hb0, (partZero_pred_iff s m _).mpr rfl⟩
      obtain ⟨i, hsome⟩ := Option.isSome_iff_exists.mp (by rw [List.findIdx?_isSome, hany])
      have hboxes := partZero_applyMove_boxes s m
      rw [hsome] at hboxes
      have hbeyond_not_box : PartZero.beyond s m ∉ s.boxes := by
        intro hmem
        have hcontra := (partZero_hasBox_iff s _).mpr hmem
        rw [hBB] at hcontra
        cases hcontra
      refine ⟨hplayer, ?_, ?_⟩
      · intro b hbmem hnew
        rw [hboxes] at hbmem
        rcases List.mem_or_eq_of_mem_set hbmem with hold | rfl
        · exact absurd hold hnew
        · exact hBW
      · rw [hboxes]
        exact List.Nodup.set hnd hbeyond_not_box
    · have hnone : s.boxes.findIdx? (fun b =>
          b.x == s.player.x + (delta m).1 && b.y == s.player.y + (delta m).2) = none := by
        rw [List.findIdx?_eq_none_iff]
        intro b hb
        refine Bool.eq_false_iff.mpr fun hpb => ?_
        have := (partZero_pred_iff s m b).mp hpb
        subst this
        exact hbox ((partZero_hasBox_iff s _).mpr hb)
      have hboxes := partZero_applyMove_boxes s m
      rw [hnone] at hboxes
      refine ⟨hplayer, ?_, ?_⟩
      · intro b hbmem hnew
        rw [hboxes] at hbmem
        exact absurd hbmem hnew
      · rw [hboxes]
        exact hnd

/-- Witness for `legal_moves_safe`: pushing the box left on the concrete
scenario state is spec-legal and leaves the mover off the walls with
distinct box positions. -/
theorem legal_moves_safe_witness :
    AppJs.legalMove AppJs.sampleState .L = true ∧
    (AppJs.applyMove AppJs.sampleState .L).player ∉ AppJs.sampleState.walls ∧
    ((AppJs.applyMove AppJs.sampleState .L).boxes.map AppJs.Box.pos).Nodup := by
  have h := legal_moves_safe.1 AppJs.sampleState .L (by decide) (by decide)
  exact ⟨by decide, h.1, h.2.2⟩

/-- The object literal at the top of `applyMove` copies the state
field-by-field: the clone equals the original as a value. -/
theorem appJs_cloneState_eq (s : AppJs.DState) : AppJs.cloneState s = s := by
  have hb : s.boxes.map (fun b => (⟨b.x, b.y, b.id⟩ : AppJs.Box)) = s.boxes := by
    have he : (fun b : AppJs.Box => (⟨b.x, b.y, b.id⟩ : AppJs.Box)) = id := funext fun b => rfl
    rw [he, List.map_id]
  have hg : s.goals.map (fun g => (⟨g.x, g.y⟩ : Coord)) = s.goals := by
    have he : (fun g : Coord => (⟨g.x, g.y⟩ : Coord)) = id := funext fun g => rfl
    rw [he, List.map_id]
  simp only [AppJs.cloneState, hb, hg]

/-- Reading the freshly appended reference yields the appended object. -/
theorem appJs_readRef_append_last (h : AppJs.Heap) (s : AppJs.DState) :
    AppJs.readRef (h ++ [s]) h.length = s := by
  simp [AppJs.readRef, List.getD_eq_getElem?_getD,
    List.getElem?_append_right (Nat.le_refl h.length)]

/-- Reading an existing reference is unaffected by an append. -/
theorem appJs_readRef_append_lt (h : AppJs.Heap) (s : AppJs.DState) (q : Nat)
    (hq : q < h.length) :
    AppJs.readRef (h ++ [s]) q = AppJs.readRef h q := by
  simp [AppJs.readRef, List.getD_eq_getElem?_getD, List.getElem?_append, hq]

/-- Overwriting the freshly appended reference replaces only the appended
object. -/
theorem appJs_set_append_last (h : AppJs.Heap) (a b : AppJs.DState) :
    (h ++ [a]).set h.length b = h ++ [b] := by
  rw [List.set_append]
  simp

/-- The reference returned by the heap-level `applyMove` is the fresh one at
the old end of the heap. -/
theorem appJs_applyMoveRef_ref (h : AppJs.Heap) (r : Nat) (m : Move) :
    (AppJs.applyMoveRef h r m).2 = h.length :=
  rfl

/-- The heap after the heap-level `applyMove`: the old heap unchanged, with
the successor state appended at the fresh reference. -/
theorem appJs_applyMoveRef_heap (h : AppJs.Heap) (r : Nat) (m : Move) :
    (AppJs.applyMoveRef h r m).1 = h ++ [AppJs.applyMove (AppJs.readRef h r) m] := by
  simp only [AppJs.applyMoveRef, AppJs.writeRef, appJs_cloneState_eq,
    appJs_readRef_append_last, appJs_set_append_last, AppJs.applyMove]
  split <;> rfl

/-- The JSON round-trip clone of `part_000`'s `applyMove` equals the
original as a value. -/
theorem partZero_cloneState_eq (s : PartZero.DState) : PartZero.cloneState s = s := by
  have he : (fun c : Coord => (⟨c.x, c.y⟩ : Coord)) = id := funext fun c => rfl
  simp only [PartZero.cloneState, he, List.map_id]

/-- Reading the freshly appended reference yields the appended object
(`part_000` state type). -/
theorem partZero_readRef_append_last (h : PartZero.Heap) (s : PartZero.DState) :
    PartZero.readRef (h ++ [s]) h.length = s := by
  simp [PartZero.readRef, List.getD_eq_getElem?_getD,
    List.getElem?_append_right (Nat.le_refl h.length)]

/-- Reading an existing reference is unaffected by an append (`part_000`
state type). -/
theorem partZero_readRef_append_lt (h : PartZero.Heap) (s : PartZero.DState) (q : Nat)
    (hq : q < h.length) :
    PartZero.readRef (h ++ [s]) q = PartZero.readRef h q := by
  simp [PartZero.readRef, List.getD_eq_getElem?_getD, List.getElem?_append, hq]

/-- Overwriting the freshly appended reference replaces only the appended
object (`part_000` state type). -/
theorem partZero_set_append_last (h : PartZero.Heap) (a b : PartZero.DState) :
    (h ++ [a]).set h.length b = h ++ [b] := by
  rw [List.set_append]
  simp

/-- The reference returned by `part_000`'s heap-level `applyMove` is the
fresh one at the old end of the heap. -/
theorem partZero_applyMoveRef_ref (h : PartZero.Heap) (r : Nat) (m : Move) :
    (PartZero.applyMoveRef h r m).2 = h.length :=
  rfl

/-- The heap after `part_000`'s heap-level `applyMove`: the old heap
unchanged, with the successor state appended at the fresh reference. -/
theorem partZero_applyMoveRef_heap (h : PartZero.Heap) (r : Nat) (m : Move) :
    (PartZero.applyMoveRef h r m).1 =
      h ++ [PartZero.applyMove (PartZero.readRef h r) m] := by
  simp only [PartZero.applyMoveRef, PartZero.writeRef, partZero_cloneState_eq,
    partZero_readRef_append_last, partZero_set_append_last, PartZero.applyMove]
  split <;>
    simp only [PartZero.writeRef, partZero_readRef_append_last, partZero_set_append_last]

/-- C8: `applyMove` never mutates its input, in both revisions.  In the
reference/heap model of each source's object semantics, applying a move to
the state at reference `r` leaves every existing reference — in particular
`r` itself, with its mover and box positions — exactly as it was, and
delivers the successor state at a fresh reference distinct from `r`. -/
theorem applyMove_never_mutates :
    (∀ (h : AppJs.Heap) (r : Nat) (m : Move), r < h.length →
      (∀ q, q < h.length →
        AppJs.readRef (AppJs.applyMoveRef h r m).1 q = AppJs.readRef h q) ∧
      (AppJs.applyMoveRef h r m).2 ≠ r ∧
      AppJs.readRef (AppJs.applyMoveRef h r m).1 (AppJs.applyMoveRef h r m).2 =
        AppJs.applyMove (AppJs.readRef h r) m) ∧
    (∀ (h : PartZero.Heap) (r : Nat) (m : Move), r < h.length →
      (∀ q, q < h.length →
        PartZero.readRef (PartZero.applyMoveRef h r m).1 q = PartZero.readRef h q) ∧
      (PartZero.applyMoveRef h r m).2 ≠ r ∧
      PartZero.readRef (PartZero.applyMoveRef h r m).1 (PartZero.applyMoveRef h r m).2 =
        PartZero.applyMove (PartZero.readRef h r) m) := by
  constructor
  · intro h r m hr
    refine ⟨?_, ?_, ?_⟩
    · intro q hq
      rw [appJs_applyMoveRef_heap]
      exact appJs_readRef_append_lt h _ q hq
    · rw [appJs_applyMoveRef_ref]
      omega
    · rw [appJs_applyMoveRef_heap, appJs_applyMoveRef_ref]
      exact appJs_readRef_append_last h _
  · intro h r m hr
    refine ⟨?_, ?_, ?_⟩
    · intro q hq
      rw [partZero_applyMoveRef_heap]
      exact partZero_readRef_append_lt h _ q hq
    · rw [partZero_applyMoveRef_ref]
      omega
    · rw [partZero_applyMoveRef_heap, partZero_applyMoveRef_ref]
      exact partZero_readRef_append_last h _

/-- Witness for `applyMove_never_mutates` on one-object heaps holding the
concrete scenario state in each revision's representation. -/
theorem applyMove_never_mutates_witness :
    (AppJs.readRef (AppJs.applyMoveRef [AppJs.sampleState] 0 .L).1 0 =
      AppJs.readRef [AppJs.sampleState] 0 ∧
     (AppJs.applyMoveRef [AppJs.sampleState] 0 .L).2 ≠ 0) ∧
    (PartZero.readRef (PartZero.applyMoveRef [PartZero.sampleState] 0 .L).1 0 =
      PartZero.readRef [PartZero.sampleState] 0 ∧
     (PartZero.applyMoveRef [PartZero.sampleState] 0 .L).2 ≠ 0) := by
  have hA := applyMove_never_mutates.1 [AppJs.sampleState] 0 .L (by decide)
  have hP := applyMove_never_mutates.2 [PartZero.sampleState] 0 .L (by decide)
  exact ⟨⟨hA.1 0 (by decide), hA.2.1⟩, ⟨hP.1 0 (by decide), hP.2.1⟩⟩
